import Mathlib

/-!
Verification of the CRM mutation/validation layer (crm/schema.py, crm/models.py).

The Django mutation handlers are embedded as pure Lean functions over an explicit
repository state.  Conventions of the embedding:

* The relational store is a `State` record holding the three tables as lists in
  row (insertion) order; `save` on a fresh row is modelled as appending to the
  table, and Django's autoincrement primary key as one more than the largest
  existing id.
* `DecimalField` prices and totals are modelled as exact rationals (`ℚ`);
  `PositiveIntegerField` stock as `Nat`.
* An absent / `None` optional string argument is modelled as `""`, matching how
  the handlers store it (`input.get("phone", "")`) and how Python truthiness
  tests treat it (`if input.phone` is false for both `None` and `""`).
* Python's `re.match(r"^(\+1\d{10}|\d{3}-\d{3}-\d{4})$", s)` anchors at the
  start of `s`, and `$` matches either at the end of the string or just before
  a newline that is the last character.  `pyMatchPhone` reproduces exactly
  that; `matchesPhonePattern` is the strict reading of the same pattern (the
  whole string matches), used to compare code behaviour against the spec's
  wording.  `\d` is modelled as the ASCII digits: every phone string the
  repository handles is ASCII, and no claim concerns the digit alphabet.
* `full_clean()` re-runs the same phone regex (`Customer.clean`) and the same
  email-uniqueness check (`validate_unique`) that the handlers already ran, so
  it never changes the outcome on the paths modelled here; Django's
  email-format validation (`EmailField`) is not modelled — emails are opaque
  strings, and no claim concerns email syntax.
* Raised `ValidationError`s become `Except.error` values; the error messages
  recorded by `BulkCreateCustomers` keep the raised text (which itself carries
  the 1-based record index) without Python's `str(ValidationError)` list-repr
  wrapper, which no claim depends on.
-/

/-- One character of `\d`: an ASCII digit. -/
def isDigitChar (c : Char) : Bool := c.isDigit

/-- The alternative `\+1\d{10}` of the phone pattern, over the whole character
list: a `+`, a `1`, then exactly ten digits. -/
def phonePlusForm : List Char → Bool
  | '+' :: '1' :: rest => rest.length == 10 && rest.all isDigitChar
  | _ => false

/-- The alternative `\d{3}-\d{3}-\d{4}` of the phone pattern, over the whole
character list. -/
def phoneDashForm : List Char → Bool
  | [a1, a2, a3, d1, b1, b2, b3, d2, c1, c2, c3, c4] =>
      d1 == '-' && d2 == '-' &&
        [a1, a2, a3, b1, b2, b3, c1, c2, c3, c4].all isDigitChar
  | _ => false

/-- The body of the pattern `\+1\d{10}|\d{3}-\d{3}-\d{4}` matching a whole
character list. -/
def phoneCore (cs : List Char) : Bool := phonePlusForm cs || phoneDashForm cs

/-- Strict reading of `^(\+1\d{10}|\d{3}-\d{3}-\d{4})$` as the spec words it:
the entire string matches one of the two alternatives. -/
def matchesPhonePattern (s : String) : Bool := phoneCore s.data

/-- Whether the character list ends in a newline character. -/
def endsWithNewline (cs : List Char) : Bool := cs.getLast? == some '\n'

/-- Python `re.match(r"^(\+1\d{10}|\d{3}-\d{3}-\d{4})$", s)` viewed as a
boolean: the pattern is anchored at the start, and `$` matches at the end of
the string or just before a newline that is the string's last character. -/
def pyMatchPhone (s : String) : Bool :=
  phoneCore s.data || (endsWithNewline s.data && phoneCore s.data.dropLast)

/-- The phone guard shared by `CreateCustomer.mutate`, `BulkCreateCustomers.mutate`
and `Customer.clean`: a falsy (absent/empty) phone is accepted, otherwise the
regex must match. -/
def phoneAccepted (phone : String) : Bool :=
  phone == "" || pyMatchPhone phone

/-- A row of the Customer table (crm/models.py). -/
structure Customer where
  id : Nat
  name : String
  email : String
  phone : String
deriving DecidableEq, Repr

/-- A row of the Product table (crm/models.py). -/
structure Product where
  id : Nat
  name : String
  price : ℚ
  stock : Nat
deriving DecidableEq, Repr

/-- A row of the Order table together with its many-to-many product link rows
(crm/models.py): `productIds` is the set of attached product ids. -/
structure Order where
  id : Nat
  customerId : Nat
  productIds : List Nat
  totalAmount : ℚ
deriving DecidableEq, Repr

/-- The repository state: the three tables in row order. -/
structure State where
  customers : List Customer
  products : List Product
  orders : List Order
deriving DecidableEq, Repr

/-- The emails currently present in the Customer table;
`Customer.objects.filter(email=e).exists()` is `e ∈ st.emails`. -/
def State.emails (st : State) : List String := st.customers.map Customer.email

/-- Autoincrement primary key for a new Customer row. -/
def nextCustomerId (st : State) : Nat :=
  (st.customers.map Customer.id).foldr max 0 + 1

/-- Autoincrement primary key for a new Order row. -/
def nextOrderId (st : State) : Nat :=
  (st.orders.map Order.id).foldr max 0 + 1

/-- The error taxonomy of the single-customer mutation. -/
inductive CustomerError where
  | DuplicateEmail
  | InvalidPhoneFormat
deriving DecidableEq, Repr

/-- `CreateCustomer.mutate` (crm/schema.py lines 78-98): reject a duplicate
email, then a malformed non-empty phone, otherwise persist the new customer.
On an error nothing is written, so the state component is returned unchanged. -/
def createCustomer (st : State) (name email phone : String) :
    State × Except CustomerError Customer :=
  if email ∈ st.emails then
    (st, Except.error CustomerError.DuplicateEmail)
  else if phone ≠ "" ∧ pyMatchPhone phone = false then
    (st, Except.error CustomerError.InvalidPhoneFormat)
  else
    let c : Customer := ⟨nextCustomerId st, name, email, phone⟩
    ({ st with customers := st.customers ++ [c] }, Except.ok c)

/-- One input record of `BulkCreateCustomers` (phone `""` when absent). -/
structure CustomerInput where
  name : String
  email : String
  phone : String
deriving DecidableEq, Repr

/-- The message of the `ValidationError` raised for a duplicate email in
`BulkCreateCustomers.mutate`; `idx1` is the 1-based record index. -/
def dupEmailMsg (idx1 : Nat) (email : String) : String :=
  "Record " ++ toString idx1 ++ ": Email \x27" ++ email ++ "\x27 already exists."

/-- The message of the `ValidationError` raised for a malformed phone in
`BulkCreateCustomers.mutate`. -/
def badPhoneMsg (idx1 : Nat) (phone : String) : String :=
  "Record " ++ toString idx1 ++ ": Invalid phone number format for \x27" ++ phone ++ "\x27."

/-- The entry appended to `error_messages`: the `except` handler prefixes the
raised message with the 1-based record index again. -/
def recordError (idx1 : Nat) (inner : String) : String :=
  "Record " ++ toString idx1 ++ ": " ++ inner

/-- The validation of one record inside the `BulkCreateCustomers.mutate` loop:
`none` when the record passes, `some msg` with the raised message otherwise. -/
def bulkValidate (st : State) (idx1 : Nat) (r : CustomerInput) : Option String :=
  if r.email ∈ st.emails then some (dupEmailMsg idx1 r.email)
  else if r.phone ≠ "" ∧ pyMatchPhone r.phone = false then some (badPhoneMsg idx1 r.phone)
  else none

/-- The loop of `BulkCreateCustomers.mutate` (crm/schema.py lines 113-141),
with `i` the 0-based index of the first remaining record.  A failing record
contributes an error message and leaves the state alone; a passing record is
saved immediately, so later duplicate checks see it.  Returns the final state,
the created customers in order, and the error messages in order. -/
def bulkGo (st : State) (i : Nat) :
    List CustomerInput → State × List Customer × List String
  | [] => (st, [], [])
  | r :: rs =>
    match bulkValidate st (i + 1) r with
    | some msg =>
        let rest := bulkGo st (i + 1) rs
        (rest.1, rest.2.1, recordError (i + 1) msg :: rest.2.2)
    | none =>
        let c : Customer := ⟨nextCustomerId st, r.name, r.email, r.phone⟩
        let rest := bulkGo { st with customers := st.customers ++ [c] } (i + 1) rs
        (rest.1, c :: rest.2.1, rest.2.2)

/-- `BulkCreateCustomers.mutate` (crm/schema.py lines 108-145). -/
def bulkCreateCustomers (st : State) (input : List CustomerInput) :
    State × List Customer × List String :=
  bulkGo st 0 input

/-- The error taxonomy of `CreateOrder`. -/
inductive OrderError where
  | CustomerNotFound
  | EmptyProductList
  | InvalidProductId
deriving DecidableEq, Repr

/-- `Customer.objects.get(pk=cid)` as an option. -/
def findCustomer (st : State) (cid : Nat) : Option Customer :=
  st.customers.find? (fun c => c.id == cid)

/-- `Product.objects.filter(pk__in=pids)`: the product rows whose id occurs in
the requested list, each row once, in table order. -/
def resolveProducts (st : State) (pids : List Nat) : List Product :=
  st.products.filter (fun p => pids.contains p.id)

/-- `Order.update_total_amount` (crm/models.py lines 48-50): recompute the
total as the sum of the current prices of the attached products. The `save()`
of the recomputed row is performed by the caller when it stores the order. -/
def update_total_amount (st : State) (o : Order) : Order :=
  { o with totalAmount := ((resolveProducts st o.productIds).map Product.price).sum }

/-- `CreateOrder.mutate` (crm/schema.py lines 190-214): resolve the customer,
reject an empty id list, require the resolved product count to equal the
requested id count, then create the order, attach the resolved products and
run the aggregation step.  On an error nothing is written. -/
def createOrder (st : State) (cid : Nat) (pids : List Nat) :
    State × Except OrderError Order :=
  match findCustomer st cid with
  | none => (st, Except.error OrderError.CustomerNotFound)
  | some _ =>
    if pids = [] then
      (st, Except.error OrderError.EmptyProductList)
    else
      let resolved := resolveProducts st pids
      if resolved.length ≠ pids.length then
        (st, Except.error OrderError.InvalidProductId)
      else
        let o := update_total_amount st
          ⟨nextOrderId st, cid, resolved.map Product.id, 0⟩
        ({ st with orders := st.orders ++ [o] }, Except.ok o)

/-- Incrementing a product's stock by the fixed restock quantity of 10. -/
def bumpStock (p : Product) : Product := { p with stock := p.stock + 10 }

/-- `UpdateLowStockProducts.mutate` (crm/schema.py lines 323-344): every
product with stock strictly below 10 is incremented by 10 and saved; the
mutated rows are returned in table order with their count and a summary
message. -/
def updateLowStockProducts (st : State) : State × List Product × Nat × String :=
  let updated := (st.products.filter (fun p => decide (p.stock < 10))).map bumpStock
  let newProducts := st.products.map (fun p => if p.stock < 10 then bumpStock p else p)
  ({ st with products := newProducts }, updated, updated.length,
    "Successfully updated " ++ toString updated.length ++ " low-stock products")

deriving instance DecidableEq for Except

/-- A state whose one customer occupies the email `dup@x.com`. -/
def stDup : State := ⟨[⟨1, "Dup", "dup@x.com", ""⟩], [], []⟩

/-- The empty repository. -/
def stEmpty : State := ⟨[], [], []⟩

/-- Products with stock values 5, 15 and 3 (spec §8 low-stock scenario). -/
def stLow : State := ⟨[], [⟨1, "A", 1, 5⟩, ⟨2, "B", 1, 15⟩, ⟨3, "C", 1, 3⟩], []⟩

/-- One customer and two products priced 1200.00 and 25.00
(spec §8 order-total scenario). -/
def stOrd : State := ⟨[⟨1, "Alice", "a@x.com", ""⟩],
  [⟨1, "Laptop", 1200, 5⟩, ⟨2, "Mouse", 25, 20⟩], []⟩

/-- `stOrd` after `CreateOrder` succeeds over both products. -/
def stOrd2 : State := ⟨[⟨1, "Alice", "a@x.com", ""⟩],
  [⟨1, "Laptop", 1200, 5⟩, ⟨2, "Mouse", 25, 20⟩], [⟨1, 1, [1, 2], 1225⟩]⟩

/-- Unfolding `bulkGo` on a failing head record: its error is recorded with
the 1-based index, the state is unchanged, and processing continues with the
remaining records. -/
theorem bulkGo_cons_err (st : State) (i : Nat) (r : CustomerInput)
    (rs : List CustomerInput) (msg : String)
    (h : bulkValidate st (i + 1) r = some msg) :
    bulkGo st i (r :: rs) =
      ((bulkGo st (i + 1) rs).1, (bulkGo st (i + 1) rs).2.1,
        recordError (i + 1) msg :: (bulkGo st (i + 1) rs).2.2) := by
  simp [bulkGo, h]

/-- Unfolding `bulkGo` on a passing head record: the customer is saved before
the remaining records are processed. -/
theorem bulkGo_cons_ok (st : State) (i : Nat) (r : CustomerInput)
    (rs : List CustomerInput)
    (h : bulkValidate st (i + 1) r = none) :
    bulkGo st i (r :: rs) =
      (let c : Customer := ⟨nextCustomerId st, r.name, r.email, r.phone⟩
       let st2 : State := { st with customers := st.customers ++ [c] }
       ((bulkGo st2 (i + 1) rs).1, c :: (bulkGo st2 (i + 1) rs).2.1,
         (bulkGo st2 (i + 1) rs).2.2)) := by
  simp [bulkGo, h]

/-- Every input record of the bulk mutation contributes exactly one entry,
either a created customer or an error message. -/
theorem bulkGo_length (input : List CustomerInput) : ∀ (st : State) (i : Nat),
    ((bulkGo st i input).2.1).length + ((bulkGo st i input).2.2).length =
      input.length := by
  induction input with
  | nil => intro st i; simp [bulkGo]
  | cons r rs ih =>
    intro st i
    cases h : bulkValidate st (i + 1) r with
    | some msg =>
      have hr := ih st (i + 1)
      rw [bulkGo_cons_err st i r rs msg h]
      simp only [List.length_cons]
      omega
    | none =>
      have hr := ih
        { st with customers :=
            st.customers ++ [⟨nextCustomerId st, r.name, r.email, r.phone⟩] } (i + 1)
      rw [bulkGo_cons_ok st i r rs h]
      simp only [List.length_cons]
      omega

/-- C3, counterexample: the claim says every nonempty string that does not
match `^(\+1\d{10}|\d{3}-\d{3}-\d{4})$` is rejected, but a match followed by a
single trailing newline does not match the anchored pattern read strictly and
is nevertheless accepted by the code. -/
theorem c3_strict_pattern_counterexample :
    phoneAccepted "123-456-7890\n" = true ∧
    matchesPhonePattern "123-456-7890\n" = false ∧
    "123-456-7890\n" ≠ "" := by decide

/-- C3, amended: phone validation accepts exactly the empty string, the
strings matching `^(\+1\d{10}|\d{3}-\d{3}-\d{4})$`, and a matching string
followed by one trailing newline (Python `$` also matches just before a final
newline); all other strings, e.g. "12345", are rejected. -/
theorem c3_phone_validation_amended :
    (∀ s : String, phoneAccepted s = true ↔
      (s = "" ∨ matchesPhonePattern s = true ∨
        ∃ t : String, matchesPhonePattern t = true ∧ s = t.push '\n')) ∧
    phoneAccepted "12345" = false ∧
    phoneAccepted "123-456-7890" = true ∧
    phoneAccepted "+11234567890" = true := by
  refine ⟨?_, by decide, by decide, by decide⟩
  intro s
  constructor
  · intro h
    simp only [phoneAccepted, Bool.or_eq_true, beq_iff_eq] at h
    rcases h with h | h
    · exact Or.inl h
    · simp only [pyMatchPhone, Bool.or_eq_true, Bool.and_eq_true] at h
      rcases h with h | ⟨hnl, hcore⟩
      · exact Or.inr (Or.inl h)
      · refine Or.inr (Or.inr ⟨⟨s.data.dropLast⟩, hcore, ?_⟩)
        have hd : s.data.getLast? = some '\n' := by
          simpa [endsWithNewline] using hnl
        obtain ⟨l, hl⟩ := List.getLast?_eq_some_iff.mp hd
        apply String.ext
        simp only [String.data_push]
        rw [hl, List.dropLast_concat]
  · intro h
    rcases h with rfl | h | ⟨t, ht, rfl⟩
    · decide
    · simp only [matchesPhonePattern] at h
      simp [phoneAccepted, pyMatchPhone, h]
    · simp only [matchesPhonePattern] at ht
      simp [phoneAccepted, pyMatchPhone, endsWithNewline, ht]

/-- C9: a well-formed phone followed by a single trailing newline passes the
`re.match` check (whose `$` matches just before a final newline) although it
does not match the pattern read strictly, and `CreateCustomer` stores it
verbatim. -/
theorem c9_trailing_newline_phone_accepted :
    pyMatchPhone "123-456-7890\n" = true ∧
    matchesPhonePattern "123-456-7890\n" = false ∧
    createCustomer stEmpty "Alice" "alice@example.com" "123-456-7890\n" =
      (⟨[⟨1, "Alice", "alice@example.com", "123-456-7890\n"⟩], [], []⟩,
        Except.ok ⟨1, "Alice", "alice@example.com", "123-456-7890\n"⟩) := by
  decide

/-- C4: whenever some existing customer already holds the requested email,
`CreateCustomer` fails with `DuplicateEmail` and performs no write: the whole
repository state, in particular the Customer table, is returned unchanged. -/
theorem c4_duplicate_email_no_write (st : State) (name email phone : String)
    (h : email ∈ st.emails) :
    createCustomer st name email phone =
      (st, Except.error CustomerError.DuplicateEmail) := by
  simp [createCustomer, h]

/-- Witness for C4 on a concrete repository holding the email `dup@x.com`. -/
theorem c4_witness :
    createCustomer stDup "X" "dup@x.com" "" =
      (stDup, Except.error CustomerError.DuplicateEmail) :=
  c4_duplicate_email_no_write stDup "X" "dup@x.com" "" (by decide)

/-- C6: `UpdateLowStockProducts` updates exactly the products with stock below
10, adding 10 to each and persisting it in place, returns exactly those
products with their count, and leaves every product with stock at or above 10
unchanged (the positional characterisation of the new table); on stocks
[5, 15, 3] the two low products end at 15 and 13 and the count is 2. -/
theorem c6_update_low_stock_products (st : State) :
    (∀ k : Nat, ((updateLowStockProducts st).1.products)[k]? =
      (st.products[k]?).map (fun p => if p.stock < 10 then bumpStock p else p)) ∧
    ((updateLowStockProducts st).2.1 =
      (st.products.filter (fun p => decide (p.stock < 10))).map bumpStock) ∧
    ((updateLowStockProducts st).2.2.1 =
      st.products.countP (fun p => decide (p.stock < 10))) ∧
    (updateLowStockProducts stLow).1.products =
      [⟨1, "A", 1, 15⟩, ⟨2, "B", 1, 15⟩, ⟨3, "C", 1, 13⟩] ∧
    (updateLowStockProducts stLow).2.1 = [⟨1, "A", 1, 15⟩, ⟨3, "C", 1, 13⟩] ∧
    (updateLowStockProducts stLow).2.2.1 = 2 := by
  refine ⟨?_, rfl, ?_, by decide, by decide, by decide⟩
  · intro k
    simp [updateLowStockProducts]
  · simp [updateLowStockProducts, List.countP_eq_length_filter]

/-- C7: after one run of `UpdateLowStockProducts`, every product it updated
has stock at or above 10, and a second run with no intervening stock changes
updates nothing and reports `count == 0`. -/
theorem c7_update_low_stock_idempotent (st : State) :
    (∀ p ∈ (updateLowStockProducts st).2.1, 10 ≤ p.stock) ∧
    (updateLowStockProducts (updateLowStockProducts st).1).2.1 = [] ∧
    (updateLowStockProducts (updateLowStockProducts st).1).2.2.1 = 0 := by
  have h2 : (updateLowStockProducts (updateLowStockProducts st).1).2.1 = [] := by
    simp only [updateLowStockProducts, List.map_eq_nil_iff, List.filter_eq_nil_iff]
    intro p hp
    simp only [List.mem_map] at hp
    obtain ⟨q, hq, rfl⟩ := hp
    by_cases h : q.stock < 10 <;> simp [h, bumpStock]
  have hlen : (updateLowStockProducts (updateLowStockProducts st).1).2.2.1 =
      ((updateLowStockProducts (updateLowStockProducts st).1).2.1).length := rfl
  refine ⟨?_, h2, ?_⟩
  · intro p hp
    simp only [updateLowStockProducts, List.mem_map, List.mem_filter] at hp
    obtain ⟨q, ⟨hq, hlt⟩, rfl⟩ := hp
    simp only [bumpStock]
    omega
  · rw [hlen, h2]
    rfl

/-- Witness for C7 at the concrete stock table [5, 15, 3]. -/
theorem c7_witness :
    10 ≤ (Product.mk 1 "A" 1 15).stock ∧
    (updateLowStockProducts (updateLowStockProducts stLow).1).2.1 = [] ∧
    (updateLowStockProducts (updateLowStockProducts stLow).1).2.2.1 = 0 :=
  ⟨(c7_update_low_stock_idempotent stLow).1 ⟨1, "A", 1, 15⟩ (by decide),
   (c7_update_low_stock_idempotent stLow).2.1,
   (c7_update_low_stock_idempotent stLow).2.2⟩

/-- C1: `BulkCreateCustomers` processes records independently and in order.
In a 3-record batch whose second record duplicates an email (either one
already in the table or the first record's) while the other two records are
valid, the two valid records are created in order, and the single error
message references record 2 with its 1-based index; moreover for every batch,
every record contributes exactly one entry, a created customer or an error
message, so a failing record never stops the processing of later records. -/
theorem c1_bulk_partial_failure (st : State) (r1 r2 r3 : CustomerInput)
    (h1 : bulkValidate st 1 r1 = none)
    (h2 : r2.email ∈ st.emails ∨ r2.email = r1.email)
    (h3a : r3.email ∉ st.emails) (h3b : r3.email ≠ r1.email)
    (h3p : r3.phone = "" ∨ pyMatchPhone r3.phone = true) :
    ((bulkCreateCustomers st [r1, r2, r3]).2.1).map Customer.email =
      [r1.email, r3.email] ∧
    ((bulkCreateCustomers st [r1, r2, r3]).2.1).length = 2 ∧
    (bulkCreateCustomers st [r1, r2, r3]).2.2 =
      [recordError 2 (dupEmailMsg 2 r2.email)] ∧
    (∀ (st2 : State) (input : List CustomerInput),
      ((bulkCreateCustomers st2 input).2.1).length +
        ((bulkCreateCustomers st2 input).2.2).length = input.length) := by
  have hm : ({ st with customers :=
      st.customers ++ [⟨nextCustomerId st, r1.name, r1.email, r1.phone⟩] } : State).emails =
      st.emails ++ [r1.email] := by
    simp [State.emails]
  have e2 : bulkValidate { st with customers :=
      st.customers ++ [⟨nextCustomerId st, r1.name, r1.email, r1.phone⟩] } 2 r2 =
      some (dupEmailMsg 2 r2.email) := by
    have hmem : r2.email ∈ ({ st with customers :=
        st.customers ++ [⟨nextCustomerId st, r1.name, r1.email, r1.phone⟩] } : State).emails := by
      rw [hm]
      rcases h2 with h | h
      · exact List.mem_append_left _ h
      · exact List.mem_append_right _ (by simp [h])
    simp [bulkValidate, hmem]
  have e3 : bulkValidate { st with customers :=
      st.customers ++ [⟨nextCustomerId st, r1.name, r1.email, r1.phone⟩] } 3 r3 = none := by
    have hnm : r3.email ∉ ({ st with customers :=
        st.customers ++ [⟨nextCustomerId st, r1.name, r1.email, r1.phone⟩] } : State).emails := by
      rw [hm]
      simp only [List.mem_append, List.mem_singleton]
      tauto
    rcases h3p with h | h <;> simp [bulkValidate, hnm, h]
  have hrun : bulkCreateCustomers st [r1, r2, r3] =
      ({ st with customers := st.customers ++
          [⟨nextCustomerId st, r1.name, r1.email, r1.phone⟩,
           ⟨nextCustomerId { st with customers :=
              st.customers ++ [⟨nextCustomerId st, r1.name, r1.email, r1.phone⟩] },
            r3.name, r3.email, r3.phone⟩] },
       [⟨nextCustomerId st, r1.name, r1.email, r1.phone⟩,
        ⟨nextCustomerId { st with customers :=
            st.customers ++ [⟨nextCustomerId st, r1.name, r1.email, r1.phone⟩] },
         r3.name, r3.email, r3.phone⟩],
       [recordError 2 (dupEmailMsg 2 r2.email)]) := by
    simp [bulkCreateCustomers, bulkGo, h1, e2, e3]
  refine ⟨?_, ?_, ?_, fun st2 input => bulkGo_length input st2 0⟩
  · rw [hrun]; simp
  · rw [hrun]; simp
  · rw [hrun]

/-- Witness for C1: a 3-record batch against a repository already holding
`dup@x.com`, where record 2 duplicates that email. -/
theorem c1_witness :
    ((bulkCreateCustomers stDup [⟨"A", "a@x.com", ""⟩, ⟨"B", "dup@x.com", ""⟩,
        ⟨"C", "c@x.com", "123-456-7890"⟩]).2.1).map Customer.email =
      ["a@x.com", "c@x.com"] ∧
    ((bulkCreateCustomers stDup [⟨"A", "a@x.com", ""⟩, ⟨"B", "dup@x.com", ""⟩,
        ⟨"C", "c@x.com", "123-456-7890"⟩]).2.1).length = 2 ∧
    (bulkCreateCustomers stDup [⟨"A", "a@x.com", ""⟩, ⟨"B", "dup@x.com", ""⟩,
        ⟨"C", "c@x.com", "123-456-7890"⟩]).2.2 =
      [recordError 2 (dupEmailMsg 2 "dup@x.com")] := by
  have h := c1_bulk_partial_failure stDup ⟨"A", "a@x.com", ""⟩ ⟨"B", "dup@x.com", ""⟩
    ⟨"C", "c@x.com", "123-456-7890"⟩ (by decide) (Or.inl (by decide)) (by decide)
    (by decide) (Or.inr (by decide))
  exact ⟨h.1, h.2.1, h.2.2.1⟩

/-- Re-resolving the ids of an already-resolved product set yields the same
set: the aggregation step, which reads the attached products back by id, sums
over exactly the products resolved at creation time. -/
theorem resolveProducts_map_id (st : State) (pids : List Nat) :
    resolveProducts st ((resolveProducts st pids).map Product.id) =
      resolveProducts st pids := by
  unfold resolveProducts
  apply List.filter_congr
  intro p hp
  apply Bool.eq_iff_iff.mpr
  simp only [List.elem_iff, List.mem_map, List.mem_filter]
  constructor
  · rintro ⟨q, ⟨hq, hqp⟩, he⟩
    simpa [← he] using hqp
  · intro hp2
    exact ⟨p, ⟨hp, by simpa using hp2⟩, rfl⟩

/-- C2: whenever `CreateOrder` succeeds, the stored order's `total_amount` is
the sum of the current prices of the attached (resolved) products, and the
order row is persisted; the aggregation step yields 0 for an order with no
attached products; over products priced 1200.00 and 25.00 the total is
1225.00. -/
theorem c2_order_total_aggregation :
    (∀ (st st' : State) (cid : Nat) (pids : List Nat) (o : Order),
      createOrder st cid pids = (st', Except.ok o) →
        o.totalAmount = ((resolveProducts st pids).map Product.price).sum ∧
        o ∈ st'.orders) ∧
    (∀ (st : State) (o : Order), o.productIds = [] →
      (update_total_amount st o).totalAmount = 0) ∧
    (createOrder stOrd 1 [1, 2]).2 = Except.ok ⟨1, 1, [1, 2], 1225⟩ := by
  refine ⟨?_, ?_, ?_⟩
  · intro st st' cid pids o h
    cases hf : findCustomer st cid with
    | none => simp [createOrder, hf] at h
    | some c =>
      by_cases he : pids = []
      · simp [createOrder, hf, he] at h
      · by_cases hl : (resolveProducts st pids).length = pids.length
        · simp [createOrder, hf, he, hl, Prod.mk.injEq] at h
          obtain ⟨h1, h2⟩ := h
          constructor
          · rw [← h2]
            show ((resolveProducts st
              ((resolveProducts st pids).map Product.id)).map Product.price).sum =
              ((resolveProducts st pids).map Product.price).sum
            rw [resolveProducts_map_id]
          · rw [← h1, ← h2]
            simp [update_total_amount]
        · simp [createOrder, hf, he, hl] at h
  · intro st o h
    simp [update_total_amount, resolveProducts, h, List.contains]
  · norm_num [createOrder, stOrd, findCustomer, resolveProducts,
      update_total_amount, nextOrderId, List.filter, List.find?]
    rw [if_neg (by simp : ¬ ([1, 2] : List Nat) = [])]

/-- Witness for C2: the 1200.00 + 25.00 order and an order with no attached
products. -/
theorem c2_witness :
    (Order.mk 1 1 [1, 2] 1225).totalAmount =
      ((resolveProducts stOrd [1, 2]).map Product.price).sum ∧
    Order.mk 1 1 [1, 2] 1225 ∈ stOrd2.orders ∧
    (update_total_amount stEmpty ⟨7, 1, [], 5⟩).totalAmount = 0 := by
  have h : createOrder stOrd 1 [1, 2] = (stOrd2, Except.ok ⟨1, 1, [1, 2], 1225⟩) := by
    norm_num [createOrder, stOrd, stOrd2, findCustomer, resolveProducts,
      update_total_amount, nextOrderId, List.filter, List.find?]
    simp
  obtain ⟨ha, hb⟩ :=
    c2_order_total_aggregation.1 stOrd stOrd2 1 [1, 2] ⟨1, 1, [1, 2], 1225⟩ h
  exact ⟨ha, hb, c2_order_total_aggregation.2.1 stEmpty ⟨7, 1, [], 5⟩ rfl⟩

/-- The ids of the resolved product set are the product-table ids that occur
in the requested list. -/
theorem resolveProducts_ids (st : State) (pids : List Nat) :
    (resolveProducts st pids).map Product.id =
      (st.products.map Product.id).filter (fun x => pids.contains x) := by
  unfold resolveProducts
  have h := List.filter_map (f := Product.id)
    (p := fun x => pids.contains x) (l := st.products)
  rw [h]
  rfl

/-- When product ids are unique and some requested id resolves to no product,
the resolved set is strictly smaller than the requested id list. -/
theorem resolved_length_lt_of_missing (st : State) (pids : List Nat)
    (hN : (st.products.map Product.id).Nodup) (x : Nat) (hx : x ∈ pids)
    (hmiss : x ∉ st.products.map Product.id) :
    (resolveProducts st pids).length < pids.length := by
  have hlen : (resolveProducts st pids).length =
      ((st.products.map Product.id).filter (fun y => pids.contains y)).length := by
    calc (resolveProducts st pids).length
        = ((resolveProducts st pids).map Product.id).length :=
          (List.length_map _ _).symm
      _ = _ := by rw [resolveProducts_ids]
  have hLnodup : ((st.products.map Product.id).filter
      (fun y => pids.contains y)).Nodup := hN.filter _
  have hLsub : ∀ y ∈ (st.products.map Product.id).filter
      (fun y => pids.contains y), y ∈ pids := by
    intro y hy
    have := (List.mem_filter.mp hy).2
    simpa [List.elem_iff] using this
  have hxL : x ∉ (st.products.map Product.id).filter (fun y => pids.contains y) :=
    fun hxl => hmiss (List.mem_filter.mp hxl).1
  have hsub : ((st.products.map Product.id).filter
      (fun y => pids.contains y)).toFinset ⊆ pids.toFinset := by
    intro y hy
    exact List.mem_toFinset.mpr (hLsub y (List.mem_toFinset.mp hy))
  have hcard : ((st.products.map Product.id).filter
      (fun y => pids.contains y)).toFinset.card < pids.toFinset.card :=
    Finset.card_lt_card ((Finset.ssubset_iff_of_subset hsub).mpr
      ⟨x, List.mem_toFinset.mpr hx, fun hxT => hxL (List.mem_toFinset.mp hxT)⟩)
  have h1 := List.toFinset_card_of_nodup hLnodup
  have h2 := List.toFinset_card_le pids
  omega

/-- When product ids are unique, every requested id resolves, and the
requested list repeats an id, the resolved set is strictly smaller than the
requested id list. -/
theorem resolved_length_lt_of_dup (st : State) (pids : List Nat)
    (hN : (st.products.map Product.id).Nodup)
    (hres : ∀ x ∈ pids, x ∈ st.products.map Product.id)
    (hdup : ¬ pids.Nodup) :
    (resolveProducts st pids).length < pids.length := by
  have hlen : (resolveProducts st pids).length =
      ((st.products.map Product.id).filter (fun y => pids.contains y)).length := by
    calc (resolveProducts st pids).length
        = ((resolveProducts st pids).map Product.id).length :=
          (List.length_map _ _).symm
      _ = _ := by rw [resolveProducts_ids]
  have hLnodup : ((st.products.map Product.id).filter
      (fun y => pids.contains y)).Nodup := hN.filter _
  have hmem : ∀ y, y ∈ (st.products.map Product.id).filter
      (fun y => pids.contains y) ↔ y ∈ pids := by
    intro y
    constructor
    · intro hy
      have := (List.mem_filter.mp hy).2
      simpa [List.elem_iff] using this
    · intro hy
      exact List.mem_filter.mpr ⟨hres y hy, by simpa [List.elem_iff] using hy⟩
  have hfin : ((st.products.map Product.id).filter
      (fun y => pids.contains y)).toFinset = pids.toFinset := by
    apply Finset.ext
    intro y
    simp only [List.mem_toFinset]
    exact hmem y
  have h1 := List.toFinset_card_of_nodup hLnodup
  have h2 := List.card_toFinset pids
  have h3 : pids.dedup.length < pids.length := by
    rcases Nat.lt_or_ge pids.dedup.length pids.length with h4 | h4
    · exact h4
    · exfalso
      have hsubl := pids.dedup_sublist
      have heq := hsubl.eq_of_length (Nat.le_antisymm hsubl.length_le h4)
      exact hdup (heq ▸ pids.nodup_dedup)
  rw [hlen, ← h1, hfin, h2]
  exact h3

/-- C5: `CreateOrder` fails with `CustomerNotFound` when the customer id does
not resolve, with `EmptyProductList` when the id list is empty, and with
`InvalidProductId` when the resolved product count differs from the requested
id count — in particular whenever some requested id resolves to no product
(given unique product ids); in every failure case the returned state is the
input state unchanged, so no order row is created and no customer or product
is touched. -/
theorem c5_create_order_error_cases (st : State) (cid : Nat) (pids : List Nat) :
    (findCustomer st cid = none →
      createOrder st cid pids = (st, Except.error OrderError.CustomerNotFound)) ∧
    (∀ c, findCustomer st cid = some c → pids = [] →
      createOrder st cid pids = (st, Except.error OrderError.EmptyProductList)) ∧
    (∀ c, findCustomer st cid = some c → pids ≠ [] →
      (resolveProducts st pids).length ≠ pids.length →
      createOrder st cid pids = (st, Except.error OrderError.InvalidProductId)) ∧
    (∀ c x, findCustomer st cid = some c → x ∈ pids →
      x ∉ st.products.map Product.id → (st.products.map Product.id).Nodup →
      createOrder st cid pids = (st, Except.error OrderError.InvalidProductId)) := by
  refine ⟨?_, ?_, ?_, ?_⟩
  · intro h
    simp [createOrder, h]
  · intro c h he
    simp [createOrder, h, he]
  · intro c h he hl
    simp [createOrder, h, he, hl]
  · intro c x h hx hmiss hN
    have hlt := resolved_length_lt_of_missing st pids hN x hx hmiss
    have hne : (resolveProducts st pids).length ≠ pids.length := Nat.ne_of_lt hlt
    have hnil : pids ≠ [] := by
      rintro rfl
      simp at hx
    simp [createOrder, h, hnil, hne]

/-- Witness for C5: the three failure modes on the concrete repository with
customer 1 and products 1 and 2. -/
theorem c5_witness :
    createOrder stOrd 7 [1] = (stOrd, Except.error OrderError.CustomerNotFound) ∧
    createOrder stOrd 1 [] = (stOrd, Except.error OrderError.EmptyProductList) ∧
    createOrder stOrd 1 [3] = (stOrd, Except.error OrderError.InvalidProductId) ∧
    createOrder stOrd 1 [1, 3] = (stOrd, Except.error OrderError.InvalidProductId) :=
  ⟨(c5_create_order_error_cases stOrd 7 [1]).1 (by decide),
   (c5_create_order_error_cases stOrd 1 []).2.1 ⟨1, "Alice", "a@x.com", ""⟩
     (by decide) rfl,
   (c5_create_order_error_cases stOrd 1 [3]).2.2.1 ⟨1, "Alice", "a@x.com", ""⟩
     (by decide) (by decide) (by decide),
   (c5_create_order_error_cases stOrd 1 [1, 3]).2.2.2 ⟨1, "Alice", "a@x.com", ""⟩ 3
     (by decide) (by decide) (by decide) (by decide)⟩

/-- C8: when every requested product id resolves but the same id is listed
twice (and product ids are unique, as primary keys are), the deduplicated
resolved set is smaller than the requested list, so the strict count check
makes `CreateOrder` fail with `InvalidProductId` instead of creating an order
with the product attached once. -/
theorem c8_duplicate_product_ids_rejected (st : State) (cid : Nat)
    (pids : List Nat)
    (hc : ∃ c, findCustomer st cid = some c)
    (hN : (st.products.map Product.id).Nodup)
    (hres : ∀ x ∈ pids, x ∈ st.products.map Product.id)
    (hdup : ¬ pids.Nodup) :
    createOrder st cid pids = (st, Except.error OrderError.InvalidProductId) := by
  obtain ⟨c, hc⟩ := hc
  have hlt := resolved_length_lt_of_dup st pids hN hres hdup
  have hne : (resolveProducts st pids).length ≠ pids.length := Nat.ne_of_lt hlt
  have hnil : pids ≠ [] := fun h => hdup (h ▸ List.nodup_nil)
  simp [createOrder, hc, hnil, hne]

/-- Witness for C8: requesting product 1 twice on the concrete repository. -/
theorem c8_witness :
    createOrder stOrd 1 [1, 1] = (stOrd, Except.error OrderError.InvalidProductId) :=
  c8_duplicate_product_ids_rejected stOrd 1 [1, 1]
    ⟨⟨1, "Alice", "a@x.com", ""⟩, by decide⟩ (by decide) (by decide) (by decide)

/-- A record that passes bulk validation has an email not yet in the table. -/
theorem bulkValidate_none_not_mem (st : State) (i : Nat) (r : CustomerInput)
    (h : bulkValidate st i r = none) : r.email ∉ st.emails := by
  intro hm
  simp [bulkValidate, hm] at h

/-- A record whose email is already in the table fails bulk validation with
the duplicate-email message. -/
theorem bulkValidate_of_mem (st : State) (i : Nat) (r : CustomerInput)
    (h : r.email ∈ st.emails) :
    bulkValidate st i r = some (dupEmailMsg i r.email) := by
  simp [bulkValidate, h]

/-- Saving one customer appends its email to the email column. -/
theorem emails_append (st : State) (c : Customer) :
    ({ st with customers := st.customers ++ [c] } : State).emails =
      st.emails ++ [c.email] := by
  simp [State.emails]

/-- The final Customer table of a bulk run is the initial table followed by
the created customers, in order. -/
theorem bulkGo_customers_eq (input : List CustomerInput) :
    ∀ (st : State) (i : Nat),
    ((bulkGo st i input).1).customers = st.customers ++ (bulkGo st i input).2.1 := by
  induction input with
  | nil => intro st i; simp [bulkGo]
  | cons r rs ih =>
    intro st i
    cases h : bulkValidate st (i + 1) r with
    | some msg =>
      rw [bulkGo_cons_err st i r rs msg h]
      simpa using ih st (i + 1)
    | none =>
      rw [bulkGo_cons_ok st i r rs h]
      have h2 := ih { st with customers :=
        st.customers ++ [⟨nextCustomerId st, r.name, r.email, r.phone⟩] } (i + 1)
      simp [h2]

/-- Customers created by a bulk run have emails that were not in the table
when the run started, and no two created customers share an email. -/
theorem bulkGo_created_fresh (input : List CustomerInput) :
    ∀ (st : State) (i : Nat),
    (∀ c ∈ (bulkGo st i input).2.1, c.email ∉ st.emails) ∧
    (((bulkGo st i input).2.1).map Customer.email).Nodup := by
  induction input with
  | nil => intro st i; simp [bulkGo]
  | cons r rs ih =>
    intro st i
    cases h : bulkValidate st (i + 1) r with
    | some msg =>
      rw [bulkGo_cons_err st i r rs msg h]
      exact ih st (i + 1)
    | none =>
      rw [bulkGo_cons_ok st i r rs h]
      have hfresh := bulkValidate_none_not_mem st (i + 1) r h
      have ih2 := ih { st with customers :=
        st.customers ++ [⟨nextCustomerId st, r.name, r.email, r.phone⟩] } (i + 1)
      constructor
      · intro c hc
        rcases List.mem_cons.mp hc with rfl | hc2
        · exact hfresh
        · intro hmem
          apply ih2.1 c hc2
          rw [emails_append]
          exact List.mem_append_left _ hmem
      · simp only [List.map_cons, List.nodup_cons]
        constructor
        · intro hmem
          rcases List.mem_map.mp hmem with ⟨c, hc, he⟩
          apply ih2.1 c hc
          rw [emails_append]
          exact List.mem_append_right _ (by simp [he])
        · exact ih2.2

/-- Once an email is present in the table, every later record carrying that
email is recorded as a duplicate-email error under its own 1-based index. -/
theorem bulkGo_dup_error (input : List CustomerInput) :
    ∀ (st : State) (i : Nat) (e : String), e ∈ st.emails →
    ∀ (k : Nat) (r : CustomerInput), input[k]? = some r → r.email = e →
    recordError (i + k + 1) (dupEmailMsg (i + k + 1) e) ∈ (bulkGo st i input).2.2 := by
  induction input with
  | nil =>
    intro st i e he k r hk
    simp at hk
  | cons r0 rs ih =>
    intro st i e he k r hk hre
    cases k with
    | zero =>
      simp only [List.getElem?_cons_zero, Option.some.injEq] at hk
      have hmem : r0.email ∈ st.emails := by rw [hk, hre]; exact he
      have hv := bulkValidate_of_mem st (i + 1) r0 hmem
      rw [bulkGo_cons_err st i r0 rs _ hv]
      simp [hk, hre]
    | succ n =>
      simp only [List.getElem?_cons_succ] at hk
      have harith : i + 1 + n + 1 = i + (n + 1) + 1 := by omega
      cases h : bulkValidate st (i + 1) r0 with
      | some msg =>
        rw [bulkGo_cons_err st i r0 rs msg h]
        have h2 := ih st (i + 1) e he n r hk hre
        rw [harith] at h2
        exact List.mem_cons_of_mem _ h2
      | none =>
        rw [bulkGo_cons_ok st i r0 rs h]
        have he2 : e ∈ ({ st with customers := st.customers ++
            [⟨nextCustomerId st, r0.name, r0.email, r0.phone⟩] } : State).emails := by
          rw [emails_append]
          exact List.mem_append_left _ he
        have h2 := ih { st with customers := st.customers ++
          [⟨nextCustomerId st, r0.name, r0.email, r0.phone⟩] } (i + 1) e he2 n r hk hre
        rw [harith] at h2
        exact h2

/-- If position `j` holds the first record carrying email `e`, `e` is not yet
in the table, and that record's phone passes, then the bulk run creates a
customer with email `e`, and every later record carrying `e` is recorded as a
duplicate-email error under its own 1-based index. -/
theorem bulkGo_first_valid (input : List CustomerInput) :
    ∀ (st : State) (i j : Nat) (rj : CustomerInput) (e : String),
    input[j]? = some rj → rj.email = e → e ∉ st.emails →
    (∀ (m : Nat) (rm : CustomerInput), m < j → input[m]? = some rm →
      rm.email ≠ e) →
    (rj.phone = "" ∨ pyMatchPhone rj.phone = true) →
    (∃ c ∈ (bulkGo st i input).2.1, c.email = e) ∧
    (∀ (k : Nat) (rk : CustomerInput), j < k → input[k]? = some rk →
      rk.email = e →
      recordError (i + k + 1) (dupEmailMsg (i + k + 1) e) ∈
        (bulkGo st i input).2.2) := by
  induction input with
  | nil =>
    intro st i j rj e hj
    simp at hj
  | cons r0 rs ih =>
    intro st i j rj e hj hje hfresh hfirst hphone
    cases j with
    | zero =>
      simp only [List.getElem?_cons_zero, Option.some.injEq] at hj
      have hv : bulkValidate st (i + 1) r0 = none := by
        have hnm : r0.email ∉ st.emails := by rw [hj, hje]; exact hfresh
        rcases hphone with h | h <;> rw [← hj] at h <;> simp [bulkValidate, hnm, h]
      rw [bulkGo_cons_ok st i r0 rs hv]
      constructor
      · refine ⟨⟨nextCustomerId st, r0.name, r0.email, r0.phone⟩,
          List.mem_cons_self _ _, ?_⟩
        rw [← hj] at hje
        exact hje
      · intro k rk hk hks hke
        cases k with
        | zero => exact absurd hk (by omega)
        | succ n =>
          simp only [List.getElem?_cons_succ] at hks
          have he2 : e ∈ ({ st with customers := st.customers ++
              [⟨nextCustomerId st, r0.name, r0.email, r0.phone⟩] } : State).emails := by
            rw [emails_append]
            refine List.mem_append_right _ ?_
            rw [← hj] at hje
            simp [← hje]
          have h2 := bulkGo_dup_error rs { st with customers := st.customers ++
            [⟨nextCustomerId st, r0.name, r0.email, r0.phone⟩] } (i + 1) e he2 n rk
            hks hke
          have harith : i + 1 + n + 1 = i + (n + 1) + 1 := by omega
          rw [harith] at h2
          exact h2
    | succ m =>
      have hne0 : r0.email ≠ e := hfirst 0 r0 (Nat.succ_pos m) (by simp)
      simp only [List.getElem?_cons_succ] at hj
      have hfirst2 : ∀ (n : Nat) (rm : CustomerInput), n < m → rs[n]? = some rm →
          rm.email ≠ e := by
        intro n rm hn hrm
        exact hfirst (n + 1) rm (by omega) (by simpa using hrm)
      cases h : bulkValidate st (i + 1) r0 with
      | some msg =>
        rw [bulkGo_cons_err st i r0 rs msg h]
        have hrec := ih st (i + 1) m rj e hj hje hfresh hfirst2 hphone
        refine ⟨hrec.1, ?_⟩
        intro k rk hk hks hke
        cases k with
        | zero => exact absurd hk (by omega)
        | succ n =>
          simp only [List.getElem?_cons_succ] at hks
          have h2 := hrec.2 n rk (by omega) hks hke
          have harith : i + 1 + n + 1 = i + (n + 1) + 1 := by omega
          rw [harith] at h2
          exact List.mem_cons_of_mem _ h2
      | none =>
        rw [bulkGo_cons_ok st i r0 rs h]
        have hfresh2 : e ∉ ({ st with customers := st.customers ++
            [⟨nextCustomerId st, r0.name, r0.email, r0.phone⟩] } : State).emails := by
          rw [emails_append]
          simp only [List.mem_append, List.mem_singleton]
          rintro (h1 | h1)
          · exact hfresh h1
          · exact hne0 h1.symm
        have hrec := ih { st with customers := st.customers ++
          [⟨nextCustomerId st, r0.name, r0.email, r0.phone⟩] } (i + 1) m rj e hj hje
          hfresh2 hfirst2 hphone
        constructor
        · obtain ⟨c, hc, hce⟩ := hrec.1
          exact ⟨c, List.mem_cons_of_mem _ hc, hce⟩
        · intro k rk hk hks hke
          cases k with
          | zero => exact absurd hk (by omega)
          | succ n =>
            simp only [List.getElem?_cons_succ] at hks
            have h2 := hrec.2 n rk (by omega) hks hke
            have harith : i + 1 + n + 1 = i + (n + 1) + 1 := by omega
            rw [harith] at h2
            exact h2

/-- C10: within one `BulkCreateCustomers` batch the duplicate check also sees
customers saved earlier in the same batch.  If record `j` is the first record
carrying email `e`, that email is fresh and record `j`'s phone passes, then a
customer with email `e` is created, every later record `k` carrying `e` is
recorded as a duplicate-email error under its own 1-based index `k + 1`, and
a table with pairwise-distinct emails still has pairwise-distinct emails
after the batch. -/
theorem c10_batch_email_uniqueness (st : State) (input : List CustomerInput)
    (j k : Nat) (rj rk : CustomerInput) (e : String)
    (hj : input[j]? = some rj) (hk : input[k]? = some rk) (hjk : j < k)
    (hje : rj.email = e) (hke : rk.email = e)
    (hfresh : e ∉ st.emails)
    (hfirst : ∀ (m : Nat) (rm : CustomerInput), m < j → input[m]? = some rm →
      rm.email ≠ e)
    (hphone : rj.phone = "" ∨ pyMatchPhone rj.phone = true) :
    (∃ c ∈ (bulkCreateCustomers st input).2.1, c.email = e) ∧
    recordError (k + 1) (dupEmailMsg (k + 1) e) ∈
      (bulkCreateCustomers st input).2.2 ∧
    (st.emails.Nodup → ((bulkCreateCustomers st input).1).emails.Nodup) := by
  have hmain := bulkGo_first_valid input st 0 j rj e hj hje hfresh hfirst hphone
  refine ⟨hmain.1, ?_, ?_⟩
  · have h2 := hmain.2 k rk hjk hk hke
    simpa using h2
  · intro hnd
    have hc := bulkGo_customers_eq input st 0
    have hf := bulkGo_created_fresh input st 0
    have hemails : ((bulkGo st 0 input).1).emails =
        st.emails ++ (((bulkGo st 0 input).2.1).map Customer.email) := by
      simp [State.emails, hc]
    show ((bulkGo st 0 input).1).emails.Nodup
    rw [hemails, List.nodup_append]
    refine ⟨hnd, hf.2, ?_⟩
    intro a ha hb
    rcases List.mem_map.mp hb with ⟨c, hcm, hce⟩
    exact hf.1 c hcm (hce ▸ ha)

/-- Witness for C10: a 2-record batch sharing one email against the empty
repository. -/
theorem c10_witness :
    (∃ c ∈ (bulkCreateCustomers stEmpty
      [⟨"A", "a@x.com", ""⟩, ⟨"B", "a@x.com", ""⟩]).2.1, c.email = "a@x.com") ∧
    recordError 2 (dupEmailMsg 2 "a@x.com") ∈
      (bulkCreateCustomers stEmpty
        [⟨"A", "a@x.com", ""⟩, ⟨"B", "a@x.com", ""⟩]).2.2 ∧
    (stEmpty.emails.Nodup → ((bulkCreateCustomers stEmpty
      [⟨"A", "a@x.com", ""⟩, ⟨"B", "a@x.com", ""⟩]).1).emails.Nodup) :=
  c10_batch_email_uniqueness stEmpty
    [⟨"A", "a@x.com", ""⟩, ⟨"B", "a@x.com", ""⟩] 0 1
    ⟨"A", "a@x.com", ""⟩ ⟨"B", "a@x.com", ""⟩ "a@x.com"
    (by simp) (by simp) (by decide) rfl rfl (by decide)
    (fun m rm hm _ => absurd hm (Nat.not_lt_zero m)) (Or.inl rfl)
